import Mathlib

/-
Verification of the condition-evaluator core of the Flask data-editing backend
(tools/df_editor.py, services/df_operator.py, tools/file_handler.py).

Modelling conventions:
- Condition strings and cell text are modelled as List Char.
- Python numbers (int/float) are modelled as rationals; decimal literals parse
  exactly, so comparison semantics agree with the source on decimal inputs.
  IEEE specials (inf, nan), exponent underscores and unicode digits are outside
  the rational model.
- A pandas cell is Val: a number, a text string, or missing (NaN).
- Python exceptions raised by the editor layer are modelled with Except; the
  tool layer of df_operator.py catches them into plain message strings.
-/

namespace DfEditor

/-- Cell value of one table entry: numeric, text, or missing (NaN). -/
inductive Val where
  | num (q : ℚ)
  | str (s : List Char)
  | missing
deriving DecidableEq, Repr

/-- Whitespace characters recognised by Python str.strip and float parsing. -/
def pyWhitespace (c : Char) : Bool :=
  c.toNat = 32 || c.toNat = 9 || c.toNat = 10 || c.toNat = 13 || c.toNat = 11 || c.toNat = 12

/-- Model of Python str.strip applied to a character list. -/
def trim (s : List Char) : List Char :=
  ((s.dropWhile pyWhitespace).reverse.dropWhile pyWhitespace).reverse

/-- Character code of a decimal digit. -/
def isDigit (c : Char) : Bool := 48 ≤ c.toNat && c.toNat ≤ 57

/-- Value of a list of decimal digit characters. -/
def digitsToNat (ds : List Char) : Nat :=
  ds.foldl (fun a c => 10 * a + (c.toNat - 48)) 0

/-- Optional sign at the start of a numeric literal, as an integer factor. -/
def parseSign : List Char → (ℤ × List Char)
  | c :: r => if c.toNat = 43 then (1, r) else if c.toNat = 45 then (-1, r) else (1, c :: r)
  | [] => (1, [])

/-- Mantissa of a decimal literal: digits with an optional decimal point.
Returns the mantissa digits as a natural number, the count of fractional
digits, and the unread remainder. -/
def parseMantissa (s : List Char) : Option (ℕ × ℕ × List Char) :=
  let ip := s.takeWhile isDigit
  let r1 := s.dropWhile isDigit
  match r1 with
  | c :: r2 =>
    if c.toNat = 46 then
      let fp := r2.takeWhile isDigit
      let r3 := r2.dropWhile isDigit
      if ip.isEmpty && fp.isEmpty then none
      else some (digitsToNat ip * 10 ^ fp.length + digitsToNat fp, fp.length, r3)
    else if ip.isEmpty then none else some (digitsToNat ip, 0, c :: r2)
  | [] => if ip.isEmpty then none else some (digitsToNat ip, 0, [])

/-- Optional exponent suffix of a decimal literal, as a signed power of ten. -/
def parseExpPart : List Char → Option ℤ
  | [] => some 0
  | c :: r =>
    if c.toNat = 101 || c.toNat = 69 then
      let (sg, r1) := parseSign r
      let ds := r1.takeWhile isDigit
      let r2 := r1.dropWhile isDigit
      if ds.isEmpty || !r2.isEmpty then none
      else some (sg * (digitsToNat ds : ℤ))
    else none

/-- Integer power of ten, written out so that it reduces definitionally. -/
def tenPowInt : ℕ → ℤ
  | 0 => 1
  | n + 1 => 10 * tenPowInt n

/-- Model of the Python float constructor on a string: strips whitespace and
parses an optionally signed decimal literal with optional exponent.  The
rational value is assembled with Rat.divInt over integer arithmetic. -/
def parseFloat (s : List Char) : Option ℚ :=
  let t := trim s
  let (sg, r) := parseSign t
  match parseMantissa r with
  | none => none
  | some (m, k, rest) =>
    match parseExpPart rest with
    | none => none
    | some e =>
      let p : ℤ := e - (k : ℤ)
      if 0 ≤ p then some (Rat.divInt (sg * (m : ℤ) * tenPowInt p.toNat) 1)
      else some (Rat.divInt (sg * (m : ℤ)) (tenPowInt (-p).toNat))

/-- Decimal digit characters of the fraction n over d in the unit interval,
by long division with fuel bounding the number of digits produced. -/
def fracDigits : Nat → Nat → Nat → List Char
  | 0, _, _ => []
  | fuel + 1, n, d =>
    if n = 0 then []
    else Char.ofNat (48 + n * 10 / d % 10) :: fracDigits fuel (n * 10 % d) d

/-- Model of the Python text form of a numeric cell: integers print without a
decimal point, other rationals print as a decimal expansion of bounded
length. -/
def reprQ (q : ℚ) : List Char :=
  if q.den = 1 then (toString q.num).toList
  else
    (if q < 0 then [Char.ofNat 45] else []) ++
      (toString (q.num.natAbs / q.den)).toList ++ [Char.ofNat 46] ++
      fracDigits 17 (q.num.natAbs % q.den) q.den

/-- Model of column_data.astype(str) on one cell. -/
def reprVal : Val → List Char
  | .num q => reprQ q
  | .str s => s
  | .missing => [Char.ofNat 110, Char.ofNat 97, Char.ofNat 110]

/-- Model of the Python equality between a cell and a numeric operand: text
never equals a number, and NaN equals nothing. -/
def pyEq : Val → ℚ → Bool
  | .num q, x => decide (q = x)
  | .str _, _ => false
  | .missing, _ => false

/-- Model of pd.to_numeric with coercing errors on one cell: numbers pass
through, numeric text parses, everything else becomes missing. -/
def toNumeric : Val → Option ℚ
  | .num q => some q
  | .str s => parseFloat s
  | .missing => none

/-- The operator tokens of df_editor, in the scan order of the source. -/
def opGe : List Char := ['>', '=']

/-- Token of the less-or-equal operator. -/
def opLe : List Char := ['<', '=']

/-- Token of the equality operator. -/
def opEq : List Char := ['=', '=']

/-- Token of the inequality operator. -/
def opNe : List Char := ['!', '=']

/-- Token of the strict greater-than operator. -/
def opGt : List Char := ['>']

/-- Token of the strict less-than operator. -/
def opLt : List Char := ['<']

/-- The operator list of _parse_condition, in source order: two-character
tokens come before their one-character prefixes. -/
def operators : List (List Char) := [opGe, opLe, opEq, opNe, opGt, opLt]

/-- The four ordering operator tokens. -/
def orderingOps : List (List Char) := [opGt, opLt, opGe, opLe]

/-- Split a list at the first occurrence of a pattern: returns the part before
the first occurrence and the part after it.  Models s.split(pat, 1). -/
def splitFirst (pat : List Char) : List Char → Option (List Char × List Char)
  | [] => if pat.isPrefixOf ([] : List Char) then some ([], []) else none
  | c :: rest =>
    if pat.isPrefixOf (c :: rest) then some ([], (c :: rest).drop pat.length)
    else (splitFirst pat rest).map fun p => (c :: p.1, p.2)

/-- Scan the operator list in order; for the first operator occurring in the
string, split at its first occurrence.  Models the for loop of
_parse_condition (the len(parts) == 2 test always holds after a split). -/
def scanOps : List (List Char) → List Char → Option (List Char × List Char)
  | [], _ => none
  | op :: rest, s =>
    match splitFirst op s with
    | some (_, after) => some (op, after)
    | none => scanOps rest s

/-- Operator and raw operand of a condition string (lines 61-79 of
df_editor.py): strip the condition, scan for an operator, trim the remainder;
default to equality against the whole stripped string. -/
def parseOpSplit (condition : List Char) : List Char × List Char :=
  let c := trim condition
  match scanOps operators c with
  | some (op, after) => (op, trim after)
  | none => (opEq, c)

/-- Double-quote character. -/
def dqChar : Char := Char.ofNat 34

/-- Single-quote character. -/
def sqChar : Char := Char.ofNat 39

/-- Remove one layer of surrounding matching quotes (lines 82-85 of
df_editor.py). -/
def stripQuotes (v : List Char) : List Char :=
  if v.head? = some dqChar ∧ v.getLast? = some dqChar then (v.drop 1).dropLast
  else if v.head? = some sqChar ∧ v.getLast? = some sqChar then (v.drop 1).dropLast
  else v

/-- Mask evaluation of _parse_condition (lines 87-115 of df_editor.py) given
the already split operator, the quote-stripped operand and the column data.
The int coercion the source applies to an integral float operand does not
change any comparison in the rational model, so numericValue is the parsed
rational itself.  An error models the ValueError the float constructor raises
on a non-numeric operand of an ordering operator. -/
def applyCondition (operator : List Char) (value : List Char) (col : List Val) :
    Except String (List Bool) :=
  let numericValue := parseFloat value
  if operator = opEq then
    .ok (col.map fun cell =>
      match numericValue with
      | some q => pyEq cell q || decide (reprVal cell = value)
      | none => decide (reprVal cell = value))
  else if operator = opNe then
    .ok (col.map fun cell =>
      match numericValue with
      | some q => !pyEq cell q && !decide (reprVal cell = value)
      | none => !decide (reprVal cell = value))
  else if operator = opGt then
    match parseFloat value with
    | none => .error ("could not convert string to float: " ++ String.mk value)
    | some q => .ok (col.map fun cell =>
        match toNumeric cell with
        | some x => decide (x > q)
        | none => false)
  else if operator = opLt then
    match parseFloat value with
    | none => .error ("could not convert string to float: " ++ String.mk value)
    | some q => .ok (col.map fun cell =>
        match toNumeric cell with
        | some x => decide (x < q)
        | none => false)
  else if operator = opGe then
    match parseFloat value with
    | none => .error ("could not convert string to float: " ++ String.mk value)
    | some q => .ok (col.map fun cell =>
        match toNumeric cell with
        | some x => decide (x ≥ q)
        | none => false)
  else if operator = opLe then
    match parseFloat value with
    | none => .error ("could not convert string to float: " ++ String.mk value)
    | some q => .ok (col.map fun cell =>
        match toNumeric cell with
        | some x => decide (x ≤ q)
        | none => false)
  else
    .ok (List.replicate col.length false)

/-- Full model of DataEditor._parse_condition: split the condition into
operator and operand, strip quotes, and evaluate the mask on the column. -/
def parseCondition (condition : List Char) (col : List Val) :
    Except String (List Bool) :=
  let p := parseOpSplit condition
  applyCondition p.1 (stripQuotes p.2) col

/-- Decidable equality for Except results, used to evaluate the model on
concrete inputs. -/
instance {e a : Type} [DecidableEq e] [DecidableEq a] : DecidableEq (Except e a) := fun x y =>
  match x, y with
  | .ok u, .ok v =>
    if h : u = v then isTrue (by rw [h]) else isFalse (by simp [h])
  | .error u, .error v =>
    if h : u = v then isTrue (by rw [h]) else isFalse (by simp [h])
  | .ok _, .error _ => isFalse (by simp)
  | .error _, .ok _ => isFalse (by simp)

/-- In-memory table: named columns in order, each a list of cell values.
Well-formed tables have unique names and equal column lengths. -/
structure Table where
  cols : List (List Char × List Val)
deriving DecidableEq, Repr

/-- Column names in order. -/
def Table.header (t : Table) : List (List Char) := t.cols.map Prod.fst

/-- Data of the first column carrying a name. -/
def getColData : List (List Char × List Val) → List Char → Option (List Val)
  | [], _ => none
  | (n, d) :: rest, name => if n = name then some d else getColData rest name

/-- Data of the named column of a table. -/
def Table.getCol (t : Table) (name : List Char) : Option (List Val) :=
  getColData t.cols name

/-- Number of rows, read off the first column (pandas len of the frame). -/
def Table.rowCount (t : Table) : Nat :=
  match t.cols with
  | [] => 0
  | (_, d) :: _ => d.length

/-- Equal-length invariant of the data model: every column has the row count
of the table. -/
def Rectangular (t : Table) : Prop := ∀ p ∈ t.cols, p.2.length = t.rowCount

instance (t : Table) : Decidable (Rectangular t) := by
  unfold Rectangular; infer_instance

/-- Keep the entries of a column standing at a true mask position; models
row selection by a boolean mask with a contiguous reset index. -/
def maskFilter (vals : List Val) (mask : List Bool) : List Val :=
  (vals.zip mask).filterMap fun p => if p.2 then some p.1 else none

/-- Overwrite the entries at true mask positions with a value; models
df.loc with a mask on one column. -/
def maskSet (vals : List Val) (mask : List Bool) (v : Val) : List Val :=
  (vals.zip mask).map fun p => if p.2 then v else p.1

/-- Row selection by a mask over every column of the table. -/
def Table.filterRows (t : Table) (mask : List Bool) : Table :=
  ⟨t.cols.map fun p => (p.1, maskFilter p.2 mask)⟩

/-- Column order _save_dataframe re-establishes before writing: original
columns still present, in original order, then new columns in current order. -/
def finalOrder (orig cur : List (List Char)) : List (List Char) :=
  orig.filter (fun c => decide (c ∈ cur)) ++ cur.filter (fun c => decide (c ∉ orig))

/-- Model of DataEditor._save_dataframe (lines 16-41 of df_editor.py): the
persisted table holds the current columns reordered to finalOrder.  File
encoding is identity in the in-memory model; the round-trip artifacts of CSV
are outside its scope. -/
def saveTable (orig : List (List Char)) (t : Table) : Table :=
  ⟨(finalOrder orig t.header).filterMap fun n => (t.getCol n).map fun d => (n, d)⟩

/-- Model of DataEditor.remove_rows_by_condition (lines 234-251): an error is
a raised ValueError, an ok result carries the returned message and the table
after the call (saved when rows were removed).  The editor was just
constructed, so original_columns is the header of the loaded table. -/
def removeRowsByConditionEditor (t : Table) (name cond : List Char) :
    Except String (String × Table) :=
  match t.getCol name with
  | none => .error ("Column " ++ String.mk name ++ " does not exist")
  | some col =>
    match parseCondition cond col with
    | .error e => .error e
    | .ok mask =>
      let removedCount := mask.count true
      if removedCount = 0 then
        .ok ("No rows found matching condition: " ++ String.mk name ++ " " ++ String.mk cond, t)
      else
        .ok ("Removed " ++ Nat.repr removedCount ++ " rows where " ++ String.mk name
              ++ " " ++ String.mk cond,
             saveTable t.header (t.filterRows (mask.map (!·))))

/-- Model of the remove_rows_by_condition tool of df_operator.py (lines
144-163): every exception of the editor is caught and mapped to a textual
error message; the second component is the table on disk after the call,
unchanged when the editor raised before saving. -/
def removeRowsByConditionTool (t : Table) (name cond : List Char) : String × Table :=
  match removeRowsByConditionEditor t name cond with
  | .ok (msg, t2) => (msg ++ ". File updated.", t2)
  | .error e => ("Error removing rows by condition: " ++ e, t)

/-- Model of DataEditor.filter_and_save (lines 333-350).  The result carries
the returned message, the frame handed back to the caller, and the table on
disk after the call (the third component; the disk initially holds t). -/
def filterAndSaveEditor (t : Table) (name cond : List Char) (saveFiltered : Bool) :
    Except String (String × Table × Table) :=
  match t.getCol name with
  | none => .error ("Column " ++ String.mk name ++ " does not exist")
  | some col =>
    match parseCondition cond col with
    | .error e => .error e
    | .ok mask =>
      let filtered := t.filterRows mask
      let filteredCount := mask.count true
      if saveFiltered then
        let saved := saveTable t.header filtered
        .ok ("Filtered and saved " ++ Nat.repr filteredCount ++ " rows where "
              ++ String.mk name ++ " " ++ String.mk cond, saved, saved)
      else
        .ok ("Found " ++ Nat.repr filteredCount ++ " rows where " ++ String.mk name
              ++ " " ++ String.mk cond ++ " (preview only)", filtered, t)

/-- Model of the add_conditional_column tool of df_operator.py (lines
356-401): validation failures and caught exceptions return an error text with
the table unchanged; otherwise the new column holds false_value everywhere
and true_value at the mask, is appended to original_columns, and the table is
saved.  false_count is len(df) minus true_count as in the source. -/
def addConditionalColumnTool (t : Table) (newCol condCol cond : List Char)
    (tv fv : Val) : String × Table :=
  if (t.getCol newCol).isSome then
    ("Error: Column " ++ String.mk newCol ++ " already exists", t)
  else
    match t.getCol condCol with
    | none => ("Error: Condition column " ++ String.mk condCol ++ " does not exist", t)
    | some col =>
      match parseCondition cond col with
      | .error e => ("Error adding conditional column: " ++ e, t)
      | .ok mask =>
        let newData := maskSet (List.replicate t.rowCount fv) mask tv
        let t2 : Table := ⟨t.cols ++ [(newCol, newData)]⟩
        let t3 := saveTable (t.header ++ [newCol]) t2
        let trueCount := mask.count true
        let falseCount := t.rowCount - trueCount
        ("Added conditional column " ++ String.mk newCol ++ ": "
          ++ Nat.repr trueCount ++ " rows = true_value, "
          ++ Nat.repr falseCount ++ " rows = false_value. File updated.", t3)

/-! Lemmas about splitFirst and the operator scan. -/

theorem isPrefixOf_iff_exists (p s : List Char) : p.isPrefixOf s = true ↔ p <+: s :=
  List.isPrefixOf_iff_prefix

theorem splitFirst_eq_append {pat s a b : List Char}
    (h : splitFirst pat s = some (a, b)) : s = a ++ pat ++ b := by
  induction s generalizing a b with
  | nil =>
    unfold splitFirst at h
    by_cases hp : pat.isPrefixOf ([] : List Char)
    · have hpe : pat = [] := List.prefix_nil.mp ( isPrefixOf_iff_exists .. |>.mp hp)
      simp [hp] at h
      simp [hpe, h.1, h.2]
    · simp [hp] at h
  | cons c rest ih =>
    unfold splitFirst at h
    by_cases hp : pat.isPrefixOf (c :: rest)
    · simp only [hp, if_pos] at h
      obtain ⟨t, ht⟩ := (isPrefixOf_iff_exists .. ).mp hp
      obtain ⟨h1, h2⟩ := Prod.mk.injEq .. ▸ Option.some.injEq .. ▸ h
      subst h1
      rw [← h2, ← ht, List.drop_left, List.nil_append]
    · simp only [hp, if_neg, not_false_iff] at h
      cases hr : splitFirst pat rest with
      | none => rw [hr] at h; simp at h
      | some p =>
        rw [hr] at h
        simp at h
        rw [← h.1, ← h.2, List.cons_append, List.cons_append]
        have := ih (a := p.1) (b := p.2) (by rw [hr])
        rw [← this]

theorem splitFirst_minimal {pat s a b : List Char}
    (h : splitFirst pat s = some (a, b)) :
    ∀ a2 b2 : List Char, s = a2 ++ pat ++ b2 → a.length ≤ a2.length := by
  induction s generalizing a b with
  | nil =>
    intro a2 b2 _
    unfold splitFirst at h
    by_cases hp : pat.isPrefixOf ([] : List Char)
    · simp [hp] at h
      rw [h.1]
      simp
    · simp [hp] at h
  | cons c rest ih =>
    intro a2 b2 hs
    unfold splitFirst at h
    by_cases hp : pat.isPrefixOf (c :: rest)
    · simp only [hp, if_pos] at h
      obtain ⟨h1, _⟩ := Prod.mk.injEq .. ▸ Option.some.injEq .. ▸ h
      simp [← h1]
    · simp only [hp, if_neg, not_false_iff] at h
      cases hr : splitFirst pat rest with
      | none => rw [hr] at h; simp at h
      | some p =>
        rw [hr] at h
        simp at h
        cases a2 with
        | nil =>
          exfalso
          apply hp
          apply (isPrefixOf_iff_exists .. ).mpr
          exact ⟨b2, by simpa using hs.symm⟩
        | cons c2 rest2 =>
          simp only [List.cons_append, List.cons.injEq] at hs
          have := ih (a := p.1) (b := p.2) (by rw [hr]) rest2 b2 hs.2
          rw [← h.1]
          simp only [List.length_cons]
          omega

theorem splitFirst_isSome_of_occurrence {pat s : List Char} (h : pat <:+: s) :
    (splitFirst pat s).isSome := by
  obtain ⟨u, v, huv⟩ := h
  induction s generalizing u with
  | nil =>
    have hpe : pat = [] := by
      cases u <;> cases pat <;> simp_all
    subst hpe
    simp [splitFirst, List.isPrefixOf]
  | cons c rest ih =>
    unfold splitFirst
    by_cases hp : pat.isPrefixOf (c :: rest)
    · simp [hp]
    · simp only [hp, if_neg, not_false_iff]
      cases u with
      | nil =>
        exfalso
        apply hp
        apply (isPrefixOf_iff_exists .. ).mpr
        exact ⟨v, by simpa using huv⟩
      | cons c2 rest2 =>
        simp only [List.cons_append, List.cons.injEq] at huv
        have hrec := ih (u := rest2) huv.2
        cases hsf : splitFirst pat rest with
        | none => rw [hsf] at hrec; simp at hrec
        | some p => simp [hsf]

theorem occurrence_of_splitFirst_some {pat s a b : List Char}
    (h : splitFirst pat s = some (a, b)) : pat <:+: s :=
  ⟨a, b, (splitFirst_eq_append h).symm⟩

theorem scanOps_some_spec {l : List (List Char)} {s op v : List Char}
    (h : scanOps l s = some (op, v)) :
    op ∈ l ∧ ∃ a, splitFirst op s = some (a, v) := by
  induction l with
  | nil => simp [scanOps] at h
  | cons o rest ih =>
    unfold scanOps at h
    cases hsf : splitFirst o s with
    | none =>
      rw [hsf] at h
      obtain ⟨hm, ha⟩ := ih h
      exact ⟨List.mem_cons_of_mem _ hm, ha⟩
    | some p =>
      rw [hsf] at h
      obtain ⟨h1, h2⟩ := Prod.mk.injEq .. ▸ Option.some.injEq .. ▸ h
      subst h1
      exact ⟨List.mem_cons_self .., ⟨p.1, by rw [hsf, ← h2]⟩⟩

theorem scanOps_isSome {l : List (List Char)} {s op : List Char}
    (hm : op ∈ l) (hocc : op <:+: s) : (scanOps l s).isSome := by
  induction l with
  | nil => simp at hm
  | cons o rest ih =>
    unfold scanOps
    cases hsf : splitFirst o s with
    | none =>
      rcases List.mem_cons.mp hm with h | h
      · subst h
        have := splitFirst_isSome_of_occurrence hocc
        rw [hsf] at this
        simp at this
      · exact ih h
    | some p => simp

theorem scanOps_maximal {l : List (List Char)} {s op v : List Char}
    (hsorted : List.Pairwise (fun x y : List Char => y.length ≤ x.length) l)
    (h : scanOps l s = some (op, v)) :
    ∀ op2 ∈ l, op2 <:+: s → op2.length ≤ op.length := by
  induction l with
  | nil => simp [scanOps] at h
  | cons o rest ih =>
    intro op2 hm hocc
    unfold scanOps at h
    cases hsf : splitFirst o s with
    | none =>
      rw [hsf] at h
      rcases List.mem_cons.mp hm with h2 | h2
      · subst h2
        exfalso
        have := splitFirst_isSome_of_occurrence hocc
        rw [hsf] at this
        simp at this
      · exact ih (List.Pairwise.of_cons hsorted) h op2 h2 hocc
    | some p =>
      rw [hsf] at h
      obtain ⟨h1, _⟩ := Prod.mk.injEq .. ▸ Option.some.injEq .. ▸ h
      subst h1
      rcases List.mem_cons.mp hm with h2 | h2
      · subst h2; exact le_refl _
      · exact (List.pairwise_cons.mp hsorted).1 op2 h2

/-- Ordinary numeric comparison selected by an ordering operator token, as
the spec words it for the mask of the ordering operators. -/
def ordCmp (op : List Char) (x q : ℚ) : Bool :=
  if op = opGt then decide (x > q)
  else if op = opLt then decide (x < q)
  else if op = opGe then decide (x ≥ q)
  else decide (x ≤ q)

theorem applyCondition_opEq (value : List Char) (col : List Val) :
    applyCondition opEq value col = .ok (col.map fun cell =>
      match parseFloat value with
      | some q => pyEq cell q || decide (reprVal cell = value)
      | none => decide (reprVal cell = value)) := by
  simp only [applyCondition, if_true]
  exact congrArg Except.ok (List.map_congr_left fun cell _ => by
    cases parseFloat value <;> rfl)

theorem applyCondition_opNe (value : List Char) (col : List Val) :
    applyCondition opNe value col = .ok (col.map fun cell =>
      match parseFloat value with
      | some q => !pyEq cell q && !decide (reprVal cell = value)
      | none => !decide (reprVal cell = value)) := by
  simp only [applyCondition, if_true]
  rw [if_neg (by decide)]
  exact congrArg Except.ok (List.map_congr_left fun cell _ => by
    cases parseFloat value <;> rfl)

theorem applyCondition_opGt (value : List Char) (col : List Val) :
    applyCondition opGt value col =
      match parseFloat value with
      | none => .error ("could not convert string to float: " ++ String.mk value)
      | some q => .ok (col.map fun cell =>
          match toNumeric cell with
          | some x => decide (x > q)
          | none => false) := by
  simp only [applyCondition, if_true]
  rw [if_neg (by decide), if_neg (by decide)]

theorem applyCondition_opLt (value : List Char) (col : List Val) :
    applyCondition opLt value col =
      match parseFloat value with
      | none => .error ("could not convert string to float: " ++ String.mk value)
      | some q => .ok (col.map fun cell =>
          match toNumeric cell with
          | some x => decide (x < q)
          | none => false) := by
  simp only [applyCondition, if_true]
  rw [if_neg (by decide), if_neg (by decide), if_neg (by decide)]

theorem applyCondition_opGe (value : List Char) (col : List Val) :
    applyCondition opGe value col =
      match parseFloat value with
      | none => .error ("could not convert string to float: " ++ String.mk value)
      | some q => .ok (col.map fun cell =>
          match toNumeric cell with
          | some x => decide (x ≥ q)
          | none => false) := by
  simp only [applyCondition, if_true]
  rw [if_neg (by decide), if_neg (by decide), if_neg (by decide), if_neg (by decide)]

theorem applyCondition_opLe (value : List Char) (col : List Val) :
    applyCondition opLe value col =
      match parseFloat value with
      | none => .error ("could not convert string to float: " ++ String.mk value)
      | some q => .ok (col.map fun cell =>
          match toNumeric cell with
          | some x => decide (x ≤ q)
          | none => false) := by
  simp only [applyCondition, if_true]
  rw [if_neg (by decide), if_neg (by decide), if_neg (by decide), if_neg (by decide), if_neg (by decide)]

theorem ordCmp_gt (x q : ℚ) : ordCmp opGt x q = decide (x > q) := by
  unfold ordCmp
  rw [if_pos rfl]

theorem ordCmp_lt (x q : ℚ) : ordCmp opLt x q = decide (x < q) := by
  unfold ordCmp
  rw [if_neg (by decide), if_pos rfl]

theorem ordCmp_ge (x q : ℚ) : ordCmp opGe x q = decide (x ≥ q) := by
  unfold ordCmp
  rw [if_neg (by decide), if_neg (by decide), if_pos rfl]

theorem ordCmp_le (x q : ℚ) : ordCmp opLe x q = decide (x ≤ q) := by
  unfold ordCmp
  rw [if_neg (by decide), if_neg (by decide), if_neg (by decide)]

theorem ordering_branch_eval {op : List Char} (value : List Char) (col : List Val)
    {q : ℚ} (hmem : op ∈ orderingOps) (hq : parseFloat value = some q) :
    applyCondition op value col =
      .ok (col.map fun cell =>
        match toNumeric cell with
        | some x => ordCmp op x q
        | none => false) := by
  simp only [orderingOps, List.mem_cons, List.not_mem_nil, or_false] at hmem
  rcases hmem with rfl | rfl | rfl | rfl
  · rw [applyCondition_opGt]
    simp only [hq, ordCmp_gt]
  · rw [applyCondition_opLt]
    simp only [hq, ordCmp_lt]
  · rw [applyCondition_opGe]
    simp only [hq, ordCmp_ge]
  · rw [applyCondition_opLe]
    simp only [hq, ordCmp_le]

/-- Claim C1: a condition string containing at least one operator token is
split by the parser at the first occurrence of an operator token of maximal
length among those occurring (two-character tokens are checked before their
one-character prefixes), and the operand is the trimmed remainder after that
occurrence. -/
theorem parse_longest_operator_at_first_occurrence
    (s op0 : List Char) (hmem : op0 ∈ operators) (hocc : op0 <:+: trim s) :
    ∃ op v a b, parseOpSplit s = (op, v) ∧ op ∈ operators ∧
      trim s = a ++ op ++ b ∧
      (∀ a2 b2 : List Char, trim s = a2 ++ op ++ b2 → a.length ≤ a2.length) ∧
      v = trim b ∧
      (∀ op2 ∈ operators, op2 <:+: trim s → op2.length ≤ op.length) := by
  have hscan : (scanOps operators (trim s)).isSome := scanOps_isSome hmem hocc
  cases hsc : scanOps operators (trim s) with
  | none => rw [hsc] at hscan; simp at hscan
  | some p =>
    obtain ⟨op, after⟩ := p
    obtain ⟨hm, a, hsf⟩ := scanOps_some_spec hsc
    refine ⟨op, trim after, a, after, ?_, hm, splitFirst_eq_append hsf,
      fun a2 b2 h => splitFirst_minimal hsf a2 b2 h, rfl,
      fun op2 h2 hocc2 => scanOps_maximal (by decide) hsc op2 h2 hocc2⟩
    simp only [parseOpSplit, hsc]

/-- Witness for C1 at the concrete condition string "> 500". -/
theorem parse_longest_operator_witness :
    ∃ op v a b, parseOpSplit (['>', ' ', '5', '0', '0'] : List Char) = (op, v) ∧
      op ∈ operators ∧
      trim ['>', ' ', '5', '0', '0'] = a ++ op ++ b ∧
      (∀ a2 b2 : List Char,
        trim ['>', ' ', '5', '0', '0'] = a2 ++ op ++ b2 → a.length ≤ a2.length) ∧
      v = trim b ∧
      (∀ op2 ∈ operators, op2 <:+: trim ['>', ' ', '5', '0', '0'] →
        op2.length ≤ op.length) :=
  parse_longest_operator_at_first_occurrence ['>', ' ', '5', '0', '0'] opGt
    (by decide) (by decide)

/-- Claim C2: with the equality operator and an operand parsing as a number,
a row matches exactly when its native value equals the numeric operand or its
text form equals the operand text; with a non-numeric operand, exactly when
its text form equals the operand text.  In the rational model the int
coercion of an integral operand is the identity. -/
theorem eq_mask_dual_comparison (cond : List Char) (col : List Val)
    (v0 value : List Char)
    (hsplit : parseOpSplit cond = (opEq, v0)) (hval : stripQuotes v0 = value) :
    (∀ q, parseFloat value = some q →
      ∃ mask, parseCondition cond col = .ok mask ∧ mask.length = col.length ∧
        ∀ i (h : i < col.length),
          mask.get? i = some (pyEq (col.get ⟨i, h⟩) q ||
            decide (reprVal (col.get ⟨i, h⟩) = value))) ∧
    (parseFloat value = none →
      ∃ mask, parseCondition cond col = .ok mask ∧ mask.length = col.length ∧
        ∀ i (h : i < col.length),
          mask.get? i = some (decide (reprVal (col.get ⟨i, h⟩) = value))) := by
  have hpc : parseCondition cond col = applyCondition opEq value col := by
    simp only [parseCondition, hsplit, hval]
  constructor
  · intro q hq
    refine ⟨col.map fun cell => pyEq cell q || decide (reprVal cell = value),
      ?_, List.length_map .., ?_⟩
    · rw [hpc, applyCondition_opEq]; simp only [hq]
    · intro i h
      rw [List.get?_map, List.get?_eq_get h]
      rfl
  · intro hq
    refine ⟨col.map fun cell => decide (reprVal cell = value),
      ?_, List.length_map .., ?_⟩
    · rw [hpc, applyCondition_opEq]; simp only [hq]
    · intro i h
      rw [List.get?_map, List.get?_eq_get h]
      rfl

/-- Witness for C2 at the condition "== 500" over a mixed column. -/
theorem eq_mask_dual_comparison_witness :
    (∀ q, parseFloat ['5', '0', '0'] = some q →
      ∃ mask, parseCondition (['=', '=', ' ', '5', '0', '0'] : List Char)
          ([.num 500, .str ['5', '0', '0'], .str ['a'], .missing] : List Val) = .ok mask ∧
        mask.length = ([.num 500, .str ['5', '0', '0'], .str ['a'], .missing] : List Val).length ∧
        ∀ i (h : i < ([.num 500, .str ['5', '0', '0'], .str ['a'], .missing] : List Val).length),
          mask.get? i = some
            (pyEq (([.num 500, .str ['5', '0', '0'], .str ['a'], .missing] : List Val).get ⟨i, h⟩) q ||
             decide (reprVal (([.num 500, .str ['5', '0', '0'], .str ['a'], .missing] : List Val).get ⟨i, h⟩)
                = ['5', '0', '0']))) ∧
    (parseFloat ['5', '0', '0'] = none →
      ∃ mask, parseCondition (['=', '=', ' ', '5', '0', '0'] : List Char)
          ([.num 500, .str ['5', '0', '0'], .str ['a'], .missing] : List Val) = .ok mask ∧
        mask.length = ([.num 500, .str ['5', '0', '0'], .str ['a'], .missing] : List Val).length ∧
        ∀ i (h : i < ([.num 500, .str ['5', '0', '0'], .str ['a'], .missing] : List Val).length),
          mask.get? i = some
            (decide (reprVal (([.num 500, .str ['5', '0', '0'], .str ['a'], .missing] : List Val).get ⟨i, h⟩)
                = ['5', '0', '0']))) :=
  eq_mask_dual_comparison ['=', '=', ' ', '5', '0', '0']
    [.num 500, .str ['5', '0', '0'], .str ['a'], .missing]
    ['5', '0', '0'] ['5', '0', '0'] (by decide) (by decide)

/-- Claim C3: with an ordering operator and a float-parsable operand, the
whole column is coerced to numeric, a non-coercible row never matches, a
numeric row matches exactly by the ordinary comparison, and a column with no
coercible entry yields the all-false mask. -/
theorem ordering_mask_semantics (cond : List Char) (col : List Val)
    (op v0 value : List Char) (q : ℚ)
    (hsplit : parseOpSplit cond = (op, v0)) (hval : stripQuotes v0 = value)
    (hmem : op ∈ orderingOps) (hq : parseFloat value = some q) :
    ∃ mask, parseCondition cond col = .ok mask ∧ mask.length = col.length ∧
      (∀ i (h : i < col.length) (x : ℚ), toNumeric (col.get ⟨i, h⟩) = some x →
        mask.get? i = some (ordCmp op x q)) ∧
      (∀ i (h : i < col.length), toNumeric (col.get ⟨i, h⟩) = none →
        mask.get? i = some false) ∧
      ((∀ cell ∈ col, toNumeric cell = none) →
        mask = List.replicate col.length false) := by
  have hpc : parseCondition cond col = applyCondition op value col := by
    simp only [parseCondition, hsplit, hval]
  refine ⟨col.map fun cell =>
      match toNumeric cell with
      | some x => ordCmp op x q
      | none => false, ?_, List.length_map .., ?_, ?_, ?_⟩
  · rw [hpc]
    exact ordering_branch_eval value col hmem hq
  · intro i h x hx
    rw [List.get?_map, List.get?_eq_get h]
    simp only [Option.map_some']
    rw [hx]
  · intro i h hx
    rw [List.get?_map, List.get?_eq_get h]
    simp only [Option.map_some']
    rw [hx]
  · intro hall
    refine List.eq_replicate_iff.mpr ⟨List.length_map .., ?_⟩
    intro b hb
    obtain ⟨cell, hcell, hfb⟩ := List.mem_map.mp hb
    rw [hall cell hcell] at hfb
    exact hfb.symm

/-- Witness for C3 at the condition "> 500" over the Calories column of the
spec scenario, extended with a non-coercible text row. -/
theorem ordering_mask_semantics_witness :
    ∃ mask, parseCondition (['>', ' ', '5', '0', '0'] : List Char)
        ([.num 300, .num 700, .num 450, .num 900, .str ['a']] : List Val) = .ok mask ∧
      mask.length = ([.num 300, .num 700, .num 450, .num 900, .str ['a']] : List Val).length ∧
      (∀ i (h : i < ([.num 300, .num 700, .num 450, .num 900, .str ['a']] : List Val).length) (x : ℚ),
        toNumeric (([.num 300, .num 700, .num 450, .num 900, .str ['a']] : List Val).get ⟨i, h⟩) = some x →
        mask.get? i = some (ordCmp ['>'] x 500)) ∧
      (∀ i (h : i < ([.num 300, .num 700, .num 450, .num 900, .str ['a']] : List Val).length),
        toNumeric (([.num 300, .num 700, .num 450, .num 900, .str ['a']] : List Val).get ⟨i, h⟩) = none →
        mask.get? i = some false) ∧
      ((∀ cell ∈ ([.num 300, .num 700, .num 450, .num 900, .str ['a']] : List Val), toNumeric cell = none) →
        mask = List.replicate ([.num 300, .num 700, .num 450, .num 900, .str ['a']] : List Val).length false) :=
  ordering_mask_semantics ['>', ' ', '5', '0', '0']
    [.num 300, .num 700, .num 450, .num 900, .str ['a']]
    ['>'] ['5', '0', '0'] ['5', '0', '0'] 500 (by decide) (by decide)
    (by decide) (by decide)

/-- Claim C10: the mask of the inequality operator is the pointwise boolean
complement of the mask of the equality operator at the same operand and
column; in the numeric case this is the De Morgan dual of the disjunction. -/
theorem neq_mask_complements_eq_mask (value : List Char) (col : List Val) :
    applyCondition opNe value col =
      Except.map (List.map (!·)) (applyCondition opEq value col) := by
  rw [applyCondition_opEq, applyCondition_opNe]
  cases hnum : parseFloat value with
  | none =>
    simp only [Except.map, List.map_map]
    exact congrArg Except.ok (List.map_congr_left fun cell _ => rfl)
  | some q =>
    simp only [Except.map, List.map_map]
    exact congrArg Except.ok (List.map_congr_left fun cell _ => by
      simp [Function.comp, Bool.not_or])

/-! Lemmas about columns, masks and saving. -/

theorem getColData_cons_ne {m : List Char} {d : List Val}
    {rest : List (List Char × List Val)} {n : List Char} (h : m ≠ n) :
    getColData ((m, d) :: rest) n = getColData rest n := by
  show (if m = n then some d else getColData rest n) = getColData rest n
  rw [if_neg h]

theorem getColData_cons_self (m : List Char) (d : List Val)
    (rest : List (List Char × List Val)) :
    getColData ((m, d) :: rest) m = some d := by
  show (if m = m then some d else getColData rest m) = some d
  rw [if_pos rfl]

theorem getColData_isSome_iff (L : List (List Char × List Val)) (n : List Char) :
    (getColData L n).isSome ↔ n ∈ L.map Prod.fst := by
  induction L with
  | nil => simp [getColData]
  | cons p rest ih =>
    obtain ⟨m, d⟩ := p
    by_cases h : m = n
    · subst h
      simp [getColData_cons_self]
    · rw [getColData_cons_ne h]
      simp only [List.map_cons, List.mem_cons, ih]
      constructor
      · exact Or.inr
      · rintro (h2 | h2)
        · exact absurd h2.symm h
        · exact h2

theorem getColData_eq_none_iff (L : List (List Char × List Val)) (n : List Char) :
    getColData L n = none ↔ n ∉ L.map Prod.fst := by
  rw [← getColData_isSome_iff, Option.not_isSome_iff_eq_none]

theorem getColData_mem {L : List (List Char × List Val)} {n : List Char} {d : List Val}
    (h : getColData L n = some d) : (n, d) ∈ L := by
  induction L with
  | nil => simp [getColData] at h
  | cons p rest ih =>
    obtain ⟨m, dm⟩ := p
    by_cases h2 : m = n
    · subst h2
      rw [getColData_cons_self] at h
      simp only [Option.some.injEq] at h
      subst h
      exact List.mem_cons_self ..
    · rw [getColData_cons_ne h2] at h
      exact List.mem_cons_of_mem _ (ih h)

theorem getColData_append_left_not_mem {L M : List (List Char × List Val)} {n : List Char}
    (h : n ∉ L.map Prod.fst) : getColData (L ++ M) n = getColData M n := by
  induction L with
  | nil => simp
  | cons p rest ih =>
    obtain ⟨m, d⟩ := p
    simp only [List.map_cons, List.mem_cons, not_or] at h
    rw [List.cons_append, getColData_cons_ne fun hh => h.1 hh.symm]
    exact ih h.2

theorem maskFilter_cons (v : Val) (vs : List Val) (b : Bool) (bs : List Bool) :
    maskFilter (v :: vs) (b :: bs) =
      if b then v :: maskFilter vs bs else maskFilter vs bs := by
  cases b <;> simp [maskFilter]

theorem maskFilter_length {vals : List Val} {mask : List Bool}
    (h : vals.length = mask.length) :
    (maskFilter vals mask).length = mask.count true := by
  induction mask generalizing vals with
  | nil => simp [maskFilter]
  | cons b bs ih =>
    cases vals with
    | nil => simp at h
    | cons v vs =>
      simp only [List.length_cons, Nat.succ.injEq] at h
      rw [maskFilter_cons]
      cases b <;> simp [List.count_cons, ih h]

theorem count_true_add_count_false (l : List Bool) :
    l.count true + l.count false = l.length := by
  induction l with
  | nil => rfl
  | cons b bs ih => cases b <;> simp [List.count_cons] <;> omega

theorem count_true_map_not (l : List Bool) :
    (l.map (!·)).count true = l.count false := by
  induction l with
  | nil => rfl
  | cons b bs ih => cases b <;> simp [List.count_cons, ih]

theorem length_map_not (l : List Bool) : (l.map (!·)).length = l.length :=
  List.length_map ..

theorem maskSet_replicate {mask : List Bool} {n : ℕ} (h : mask.length = n)
    (tv fv : Val) :
    maskSet (List.replicate n fv) mask tv =
      mask.map fun b => if b then tv else fv := by
  induction mask generalizing n with
  | nil => simp [maskSet]
  | cons b bs ih =>
    cases n with
    | zero => simp at h
    | succ m =>
      simp only [List.length_cons, Nat.succ.injEq] at h
      simp only [List.replicate_succ, maskSet, List.zip_cons_cons, List.map_cons]
      exact congrArg _ (ih h)

theorem count_map_if_true {mask : List Bool} {tv fv : Val} (h : tv ≠ fv) :
    (mask.map fun b => if b then tv else fv).count tv = mask.count true := by
  induction mask with
  | nil => rfl
  | cons b bs ih =>
    cases b <;> simp [List.count_cons, ih, h, Ne.symm h]

theorem count_map_if_false {mask : List Bool} {tv fv : Val} (h : tv ≠ fv) :
    (mask.map fun b => if b then tv else fv).count fv = mask.count false := by
  induction mask with
  | nil => rfl
  | cons b bs ih =>
    cases b <;> simp [List.count_cons, ih, h, Ne.symm h]

theorem filterRows_header (t : Table) (m : List Bool) :
    (t.filterRows m).header = t.header := by
  simp only [Table.filterRows, Table.header, List.map_map]
  exact List.map_congr_left fun p _ => rfl

theorem getColData_map_maskFilter (L : List (List Char × List Val)) (m : List Bool)
    (n : List Char) :
    getColData (L.map fun p => (p.1, maskFilter p.2 m)) n =
      (getColData L n).map fun d => maskFilter d m := by
  induction L with
  | nil => simp [getColData]
  | cons p rest ih =>
    obtain ⟨nm, d⟩ := p
    by_cases h : nm = n
    · subst h
      simp only [List.map_cons, getColData_cons_self, Option.map_some']
    · rw [List.map_cons, getColData_cons_ne h, getColData_cons_ne h]
      exact ih

theorem filterRows_getCol (t : Table) (m : List Bool) (n : List Char) :
    (t.filterRows m).getCol n = (t.getCol n).map fun d => maskFilter d m :=
  getColData_map_maskFilter t.cols m n

theorem filterRows_rowCount {t : Table} {m : List Bool} (hrect : Rectangular t)
    (hlen : m.length = t.rowCount) :
    (t.filterRows m).rowCount = m.count true := by
  cases t with
  | mk cols =>
    cases cols with
    | nil =>
      have : m = [] := List.eq_nil_of_length_eq_zero hlen
      subst this
      rfl
    | cons p rest =>
      obtain ⟨nm, d⟩ := p
      have hd : d.length = m.length := by
        rw [hlen]
        exact hrect (nm, d) (List.mem_cons_self ..)
      exact maskFilter_length hd

theorem mem_of_mem_finalOrder {orig cur n} (h : n ∈ finalOrder orig cur) : n ∈ cur := by
  simp only [finalOrder, List.mem_append, List.mem_filter] at h
  rcases h with h | h
  · simpa using h.2
  · exact h.1

theorem mem_finalOrder_of_mem_cur {orig cur : List (List Char)} {n : List Char}
    (h : n ∈ cur) : n ∈ finalOrder orig cur := by
  by_cases h2 : n ∈ orig
  · exact List.mem_append_left _ (List.mem_filter.mpr ⟨h2, by simpa using h⟩)
  · exact List.mem_append_right _ (List.mem_filter.mpr ⟨h, by simpa using h2⟩)

theorem map_fst_filterMap_getCol (t : Table) (L : List (List Char))
    (hall : ∀ n ∈ L, n ∈ t.header) :
    (L.filterMap fun n => (t.getCol n).map fun d => (n, d)).map Prod.fst = L := by
  induction L with
  | nil => simp
  | cons n rest ih =>
    have hs : (t.getCol n).isSome :=
      (getColData_isSome_iff t.cols n).mpr (hall n (List.mem_cons_self ..))
    obtain ⟨d, hd⟩ := Option.isSome_iff_exists.mp hs
    simp only [List.filterMap_cons, hd, Option.map_some', List.map_cons]
    exact congrArg _ (ih fun m hm => hall m (List.mem_cons_of_mem _ hm))

theorem getColData_filterMap_getCol (t : Table) (L : List (List Char)) (n : List Char)
    (hn : n ∈ L) (hall : ∀ m ∈ L, m ∈ t.header) :
    getColData (L.filterMap fun m => (t.getCol m).map fun d => (m, d)) n = t.getCol n := by
  induction L with
  | nil => simp at hn
  | cons m rest ih =>
    have hs : (t.getCol m).isSome :=
      (getColData_isSome_iff t.cols m).mpr (hall m (List.mem_cons_self ..))
    obtain ⟨d, hd⟩ := Option.isSome_iff_exists.mp hs
    simp only [List.filterMap_cons, hd, Option.map_some']
    by_cases h : m = n
    · subst h
      rw [getColData_cons_self, hd]
    · rw [getColData_cons_ne h]
      rcases List.mem_cons.mp hn with h2 | h2
      · exact absurd h2.symm h
      · exact ih h2 fun m2 hm2 => hall m2 (List.mem_cons_of_mem _ hm2)

theorem saveTable_header (orig : List (List Char)) (t : Table) :
    (saveTable orig t).header = finalOrder orig t.header :=
  map_fst_filterMap_getCol t _ fun n hn => mem_of_mem_finalOrder hn

theorem saveTable_getCol (orig : List (List Char)) (t : Table) (n : List Char)
    (hn : n ∈ t.header) : (saveTable orig t).getCol n = t.getCol n :=
  getColData_filterMap_getCol t _ n (mem_finalOrder_of_mem_cur hn)
    fun m hm => mem_of_mem_finalOrder hm

theorem finalOrder_self (X : List (List Char)) : finalOrder X X = X := by
  unfold finalOrder
  rw [List.filter_eq_self.mpr fun a ha => by simpa using ha,
    List.filter_eq_nil_iff.mpr fun a ha => by simpa using ha, List.append_nil]

theorem filterMap_getColData_self (L0 : List (List Char × List Val)) :
    ∀ L : List (List Char × List Val), (L.map Prod.fst).Nodup →
    (∀ n ∈ L.map Prod.fst, getColData L0 n = getColData L n) →
    (L.map Prod.fst).filterMap (fun n => (getColData L0 n).map fun d => (n, d)) = L := by
  intro L
  induction L with
  | nil => simp
  | cons p rest ih =>
    obtain ⟨m, d⟩ := p
    intro hnd hagree
    have hm : getColData L0 m = some d := by
      rw [hagree m (by simp)]
      exact getColData_cons_self ..
    simp only [List.map_cons, List.filterMap_cons, hm, Option.map_some']
    rw [ih (List.nodup_cons.mp hnd).2 ?_]
    intro n hn
    have hne : n ≠ m := by
      intro hcontra
      exact (List.nodup_cons.mp hnd).1 (hcontra ▸ hn)
    rw [hagree n (by simp [hn])]
    exact getColData_cons_ne fun hh => hne hh.symm

theorem saveTable_self {t : Table} (hnd : t.header.Nodup) : saveTable t.header t = t := by
  cases t with
  | mk cols =>
    show Table.mk _ = Table.mk cols
    congr 1
    have h1 : finalOrder (Table.mk cols).header (Table.mk cols).header =
        cols.map Prod.fst := finalOrder_self _
    rw [h1]
    exact filterMap_getColData_self cols cols hnd fun n _ => rfl

/-! Case analysis lemmas for the full condition pipeline. -/

theorem parseCondition_def (cond : List Char) (col : List Val) :
    parseCondition cond col =
      applyCondition (parseOpSplit cond).1 (stripQuotes (parseOpSplit cond).2) col := rfl

theorem parseOpSplit_fst_mem (cond : List Char) : (parseOpSplit cond).1 ∈ operators := by
  simp only [parseOpSplit]
  cases h : scanOps operators (trim cond) with
  | none => simp [h, operators]
  | some p =>
    obtain ⟨op, after⟩ := p
    simp only [h]
    exact (scanOps_some_spec h).1

theorem parseCondition_ok_length {cond : List Char} {col : List Val} {mask : List Bool}
    (h : parseCondition cond col = .ok mask) : mask.length = col.length := by
  have hmem := parseOpSplit_fst_mem cond
  rw [parseCondition_def] at h
  simp only [operators, List.mem_cons, List.not_mem_nil, or_false] at hmem
  rcases hmem with he | he | he | he | he | he <;> rw [he] at h
  · cases hv : parseFloat (stripQuotes (parseOpSplit cond).2) <;>
      rw [applyCondition_opGe, hv] at h
    · simp at h
    · simp only [Except.ok.injEq] at h
      rw [← h, List.length_map]
  · cases hv : parseFloat (stripQuotes (parseOpSplit cond).2) <;>
      rw [applyCondition_opLe, hv] at h
    · simp at h
    · simp only [Except.ok.injEq] at h
      rw [← h, List.length_map]
  · rw [applyCondition_opEq] at h
    simp only [Except.ok.injEq] at h
    rw [← h, List.length_map]
  · rw [applyCondition_opNe] at h
    simp only [Except.ok.injEq] at h
    rw [← h, List.length_map]
  · cases hv : parseFloat (stripQuotes (parseOpSplit cond).2) <;>
      rw [applyCondition_opGt, hv] at h
    · simp at h
    · simp only [Except.ok.injEq] at h
      rw [← h, List.length_map]
  · cases hv : parseFloat (stripQuotes (parseOpSplit cond).2) <;>
      rw [applyCondition_opLt, hv] at h
    · simp at h
    · simp only [Except.ok.injEq] at h
      rw [← h, List.length_map]

/-- Claim C4: remove_rows_by_condition on an existing column returns a
no-match message with the table unchanged when the mask selects no row;
otherwise the result keeps exactly the rows where the mask is false, reports
the number of removed rows, and row counts add up. -/
theorem remove_rows_by_condition_semantics (t : Table) (name cond : List Char)
    (col : List Val) (mask : List Bool)
    (hnd : t.header.Nodup) (hrect : Rectangular t)
    (hcol : t.getCol name = some col) (hmask : parseCondition cond col = .ok mask) :
    (mask.count true = 0 →
      removeRowsByConditionEditor t name cond =
        .ok ("No rows found matching condition: " ++ String.mk name ++ " "
              ++ String.mk cond, t)) ∧
    (mask.count true ≠ 0 →
      removeRowsByConditionEditor t name cond =
        .ok ("Removed " ++ Nat.repr (mask.count true) ++ " rows where "
              ++ String.mk name ++ " " ++ String.mk cond,
             t.filterRows (mask.map (!·))) ∧
      (t.filterRows (mask.map (!·))).rowCount + mask.count true = t.rowCount) := by
  have hcl : col.length = t.rowCount := hrect (name, col) (getColData_mem hcol)
  have hml : mask.length = t.rowCount := by
    rw [parseCondition_ok_length hmask, hcl]
  have hsave : saveTable t.header (t.filterRows (mask.map (!·))) =
      t.filterRows (mask.map (!·)) := by
    have hh := filterRows_header t (mask.map (!·))
    rw [← hh]
    exact saveTable_self (by rw [hh]; exact hnd)
  constructor
  · intro h0
    simp only [removeRowsByConditionEditor, hcol, hmask]
    rw [if_pos h0]
  · intro h0
    constructor
    · simp only [removeRowsByConditionEditor, hcol, hmask]
      rw [if_neg h0, hsave]
    · rw [filterRows_rowCount hrect (by rw [length_map_not, hml]), count_true_map_not]
      have := count_true_add_count_false mask
      omega

/-- Witness for C4 on the Category scenario table of the spec. -/
theorem remove_rows_by_condition_witness :
    removeRowsByConditionEditor
        (⟨[(['C'], [.str ['B'], .str ['P'], .str ['B']])]⟩ : Table) ['C'] ['B'] =
      .ok ("Removed " ++ Nat.repr (([true, false, true] : List Bool).count true)
            ++ " rows where " ++ String.mk ['C'] ++ " " ++ String.mk ['B'],
           Table.filterRows ⟨[(['C'], [.str ['B'], .str ['P'], .str ['B']])]⟩
             (([true, false, true] : List Bool).map (!·))) ∧
    (Table.filterRows ⟨[(['C'], [.str ['B'], .str ['P'], .str ['B']])]⟩
        (([true, false, true] : List Bool).map (!·))).rowCount
      + ([true, false, true] : List Bool).count true
      = (⟨[(['C'], [.str ['B'], .str ['P'], .str ['B']])]⟩ : Table).rowCount :=
  (remove_rows_by_condition_semantics ⟨[(['C'], [.str ['B'], .str ['P'], .str ['B']])]⟩
      ['C'] ['B'] [.str ['B'], .str ['P'], .str ['B']] [true, false, true]
      (by decide) (by decide) (by decide) (by decide)).2 (by decide)

/-- Claim C9: filter_and_save computes the keep mask; without the persist
flag the filtered subset is returned for display and the table on disk is
unchanged, with the persist flag the stored table becomes the filtered
subset and is saved. -/
theorem filter_and_save_semantics (t : Table) (name cond : List Char)
    (col : List Val) (mask : List Bool) (hnd : t.header.Nodup)
    (hcol : t.getCol name = some col) (hmask : parseCondition cond col = .ok mask) :
    filterAndSaveEditor t name cond false =
      .ok ("Found " ++ Nat.repr (mask.count true) ++ " rows where "
            ++ String.mk name ++ " " ++ String.mk cond ++ " (preview only)",
           t.filterRows mask, t) ∧
    filterAndSaveEditor t name cond true =
      .ok ("Filtered and saved " ++ Nat.repr (mask.count true) ++ " rows where "
            ++ String.mk name ++ " " ++ String.mk cond,
           t.filterRows mask, t.filterRows mask) := by
  have hsave : saveTable t.header (t.filterRows mask) = t.filterRows mask := by
    have hh := filterRows_header t mask
    rw [← hh]
    exact saveTable_self (by rw [hh]; exact hnd)
  constructor
  · simp only [filterAndSaveEditor, hcol, hmask]
    rw [if_neg (by simp)]
  · simp only [filterAndSaveEditor, hcol, hmask]
    rw [if_pos trivial, hsave]

/-- Witness for C9 on the Calories scenario table. -/
theorem filter_and_save_witness :
    filterAndSaveEditor (⟨[(['C'], [.num 300, .num 700])]⟩ : Table) ['C']
        ['>', ' ', '5', '0', '0'] false =
      .ok ("Found " ++ Nat.repr (([false, true] : List Bool).count true)
            ++ " rows where " ++ String.mk ['C'] ++ " "
            ++ String.mk ['>', ' ', '5', '0', '0'] ++ " (preview only)",
           Table.filterRows ⟨[(['C'], [.num 300, .num 700])]⟩ [false, true],
           (⟨[(['C'], [.num 300, .num 700])]⟩ : Table)) ∧
    filterAndSaveEditor (⟨[(['C'], [.num 300, .num 700])]⟩ : Table) ['C']
        ['>', ' ', '5', '0', '0'] true =
      .ok ("Filtered and saved " ++ Nat.repr (([false, true] : List Bool).count true)
            ++ " rows where " ++ String.mk ['C'] ++ " "
            ++ String.mk ['>', ' ', '5', '0', '0'],
           Table.filterRows ⟨[(['C'], [.num 300, .num 700])]⟩ [false, true],
           Table.filterRows ⟨[(['C'], [.num 300, .num 700])]⟩ [false, true]) :=
  filter_and_save_semantics ⟨[(['C'], [.num 300, .num 700])]⟩ ['C']
    ['>', ' ', '5', '0', '0'] [.num 300, .num 700] [false, true]
    (by decide) (by decide) (by decide)

/-- Claim C5: add_conditional_column fails when the new column exists or the
condition column is missing; otherwise the new column holds false_value with
true_value exactly at the mask, its values lie in the pair, the two counts
add to the row count, and both counts are reported. -/
theorem add_conditional_column_semantics (t : Table) (newCol condCol cond : List Char)
    (tv fv : Val) :
    ((t.getCol newCol).isSome →
      addConditionalColumnTool t newCol condCol cond tv fv =
        ("Error: Column " ++ String.mk newCol ++ " already exists", t)) ∧
    (t.getCol newCol = none → t.getCol condCol = none →
      addConditionalColumnTool t newCol condCol cond tv fv =
        ("Error: Condition column " ++ String.mk condCol ++ " does not exist", t)) ∧
    (∀ col mask, t.header.Nodup → Rectangular t → t.getCol newCol = none →
      t.getCol condCol = some col → parseCondition cond col = .ok mask →
      ∃ t2, addConditionalColumnTool t newCol condCol cond tv fv =
          ("Added conditional column " ++ String.mk newCol ++ ": "
            ++ Nat.repr (mask.count true) ++ " rows = true_value, "
            ++ Nat.repr (t.rowCount - mask.count true)
            ++ " rows = false_value. File updated.", t2) ∧
        t2.getCol newCol = some (mask.map fun b => if b then tv else fv) ∧
        (∀ x ∈ mask.map fun b => if b then tv else fv, x = tv ∨ x = fv) ∧
        (mask.map fun b => if b then tv else fv).length = t.rowCount ∧
        (tv ≠ fv →
          (mask.map fun b => if b then tv else fv).count tv
            + (mask.map fun b => if b then tv else fv).count fv = t.rowCount)) := by
  refine ⟨?_, ?_, ?_⟩
  · intro hsome
    simp only [addConditionalColumnTool]
    rw [if_pos hsome]
  · intro hnew hcond
    simp only [addConditionalColumnTool, hcond]
    rw [if_neg (by simp [hnew])]
  · intro col mask hnd hrect hnew hcond hmask
    have hcl : col.length = t.rowCount := hrect (condCol, col) (getColData_mem hcond)
    have hml : mask.length = t.rowCount := by
      rw [parseCondition_ok_length hmask, hcl]
    have hnm : newCol ∉ t.header := (getColData_eq_none_iff t.cols newCol).mp hnew
    have hdata : maskSet (List.replicate t.rowCount fv) mask tv =
        mask.map fun b => if b then tv else fv := maskSet_replicate hml tv fv
    have hhead2 : (Table.mk (t.cols ++ [(newCol,
        mask.map fun b => if b then tv else fv)])).header = t.header ++ [newCol] := by
      simp [Table.header, List.map_append]
    have hnd2 : (Table.mk (t.cols ++ [(newCol,
        mask.map fun b => if b then tv else fv)])).header.Nodup := by
      rw [hhead2]
      refine List.Nodup.append hnd (List.nodup_singleton _) ?_
      intro x hx hy
      rw [List.mem_singleton.mp hy] at hx
      exact hnm hx
    have hsave : saveTable (t.header ++ [newCol]) (Table.mk (t.cols ++ [(newCol,
        mask.map fun b => if b then tv else fv)])) = Table.mk (t.cols ++ [(newCol,
        mask.map fun b => if b then tv else fv)]) := by
      rw [← hhead2]
      exact saveTable_self hnd2
    refine ⟨Table.mk (t.cols ++ [(newCol, mask.map fun b => if b then tv else fv)]),
      ?_, ?_, ?_, ?_, ?_⟩
    · simp only [addConditionalColumnTool, hcond, hmask, hdata]
      rw [if_neg (by simp [hnew]), hsave]
    · show getColData (t.cols ++ [(newCol, mask.map fun b => if b then tv else fv)])
          newCol = _
      rw [getColData_append_left_not_mem hnm, getColData_cons_self]
    · intro x hx
      obtain ⟨b, _, hb⟩ := List.mem_map.mp hx
      cases b
      · exact Or.inr (by rw [← hb]; rfl)
      · exact Or.inl (by rw [← hb]; rfl)
    · rw [List.length_map, hml]
    · intro hne
      rw [count_map_if_true hne, count_map_if_false hne, count_true_add_count_false, hml]

/-- Witness for C5: the Unhealthy column scenario of the spec. -/
theorem add_conditional_column_witness :
    ∃ t2, addConditionalColumnTool (⟨[(['C'], [.num 300, .num 700])]⟩ : Table)
        ['U'] ['C'] ['>', ' ', '5', '0', '0'] (.num 1) (.num 0) =
        ("Added conditional column " ++ String.mk ['U'] ++ ": "
          ++ Nat.repr (([false, true] : List Bool).count true) ++ " rows = true_value, "
          ++ Nat.repr ((⟨[(['C'], [.num 300, .num 700])]⟩ : Table).rowCount
              - ([false, true] : List Bool).count true)
          ++ " rows = false_value. File updated.", t2) ∧
      t2.getCol ['U'] = some (([false, true] : List Bool).map fun b =>
        if b then Val.num 1 else Val.num 0) ∧
      (∀ x ∈ ([false, true] : List Bool).map fun b =>
        if b then Val.num 1 else Val.num 0, x = Val.num 1 ∨ x = Val.num 0) ∧
      (([false, true] : List Bool).map fun b =>
        if b then Val.num 1 else Val.num 0).length
          = (⟨[(['C'], [.num 300, .num 700])]⟩ : Table).rowCount ∧
      (Val.num 1 ≠ Val.num 0 →
        (([false, true] : List Bool).map fun b =>
          if b then Val.num 1 else Val.num 0).count (Val.num 1)
          + (([false, true] : List Bool).map fun b =>
            if b then Val.num 1 else Val.num 0).count (Val.num 0)
          = (⟨[(['C'], [.num 300, .num 700])]⟩ : Table).rowCount) :=
  (add_conditional_column_semantics ⟨[(['C'], [.num 300, .num 700])]⟩
      ['U'] ['C'] ['>', ' ', '5', '0', '0'] (.num 1) (.num 0)).2.2
    [.num 300, .num 700] [false, true]
    (by decide) (by decide) (by decide) (by decide) (by decide)

/-- Claim C6: an ordering operator with a non-float operand makes the
condition evaluator raise, and the tool boundary turns every editor error,
from the evaluator or from mutation validation, into a textual failure
message with the stored table unchanged. -/
theorem evaluator_errors_caught_at_tool_boundary (t : Table) (name cond : List Char) :
    (∀ col op v0, t.getCol name = some col → parseOpSplit cond = (op, v0) →
      op ∈ orderingOps → parseFloat (stripQuotes v0) = none →
      ∃ e, parseCondition cond col = .error e ∧
        removeRowsByConditionTool t name cond =
          ("Error removing rows by condition: " ++ e, t)) ∧
    (∀ e, removeRowsByConditionEditor t name cond = .error e →
      removeRowsByConditionTool t name cond =
        ("Error removing rows by condition: " ++ e, t)) := by
  constructor
  · intro col op v0 hcol hsplit hmem hbad
    have herr : parseCondition cond col =
        .error ("could not convert string to float: " ++ String.mk (stripQuotes v0)) := by
      rw [parseCondition_def, hsplit]
      simp only [orderingOps, List.mem_cons, List.not_mem_nil, or_false] at hmem
      rcases hmem with rfl | rfl | rfl | rfl
      · rw [applyCondition_opGt, hbad]
      · rw [applyCondition_opLt, hbad]
      · rw [applyCondition_opGe, hbad]
      · rw [applyCondition_opLe, hbad]
    refine ⟨_, herr, ?_⟩
    simp only [removeRowsByConditionTool, removeRowsByConditionEditor, hcol, herr]
  · intro e he
    simp only [removeRowsByConditionTool, he]

/-- Witness for C6: a greater-than condition with a textual operand on a
one-column table. -/
theorem evaluator_errors_caught_witness :
    ∃ e, parseCondition ['>', ' ', 'a'] [.num 1] = .error e ∧
      removeRowsByConditionTool (⟨[(['A'], [.num 1])]⟩ : Table) ['A'] ['>', ' ', 'a'] =
        ("Error removing rows by condition: " ++ e,
         (⟨[(['A'], [.num 1])]⟩ : Table)) :=
  (evaluator_errors_caught_at_tool_boundary ⟨[(['A'], [.num 1])]⟩ ['A'] ['>', ' ', 'a']).1
    [.num 1] ['>'] ['a'] (by decide) (by decide) (by decide) (by decide)

/-- Claim C7: saving re-establishes the column order as the original order
restricted to surviving columns followed by new columns, keeps every present
column exactly, and a save with no mutation is the identity on the table. -/
theorem save_preserves_column_order (orig : List (List Char)) (t : Table) :
    ((saveTable orig t).header =
      orig.filter (fun c => decide (c ∈ t.header)) ++
        t.header.filter (fun c => decide (c ∉ orig))) ∧
    (∀ n ∈ t.header, (saveTable orig t).getCol n = t.getCol n) ∧
    (t.header.Nodup → saveTable t.header t = t) := by
  refine ⟨saveTable_header orig t, ?_, saveTable_self⟩
  intro n hn
  exact saveTable_getCol orig t n hn

/-- Witness for C7: a two-column table saved against an original order that
lists a removed column first and misses the freshly added second column. -/
theorem save_preserves_column_order_witness :
    ((saveTable [['X'], ['A']] (⟨[(['A'], [.num 1]), (['B'], [.num 2])]⟩ : Table)).header =
      ([['X'], ['A']] : List (List Char)).filter
          (fun c => decide (c ∈ (⟨[(['A'], [.num 1]), (['B'], [.num 2])]⟩ : Table).header)) ++
        (⟨[(['A'], [.num 1]), (['B'], [.num 2])]⟩ : Table).header.filter
          (fun c => decide (c ∉ ([['X'], ['A']] : List (List Char))))) ∧
    (∀ n ∈ (⟨[(['A'], [.num 1]), (['B'], [.num 2])]⟩ : Table).header,
      (saveTable [['X'], ['A']] ⟨[(['A'], [.num 1]), (['B'], [.num 2])]⟩).getCol n =
        (⟨[(['A'], [.num 1]), (['B'], [.num 2])]⟩ : Table).getCol n) ∧
    ((⟨[(['A'], [.num 1]), (['B'], [.num 2])]⟩ : Table).header.Nodup →
      saveTable (⟨[(['A'], [.num 1]), (['B'], [.num 2])]⟩ : Table).header
          ⟨[(['A'], [.num 1]), (['B'], [.num 2])]⟩ =
        ⟨[(['A'], [.num 1]), (['B'], [.num 2])]⟩) :=
  save_preserves_column_order [['X'], ['A']] ⟨[(['A'], [.num 1]), (['B'], [.num 2])]⟩

/-- Claim C8: on every condition and column the evaluator either returns a
mask of the length of the column, with non-coercible rows resolved to false
under an ordering operator, or fails, and it fails only for an ordering
operator with a non-float operand. -/
theorem mask_length_and_failure_modes (cond : List Char) (col : List Val) :
    (∀ mask, parseCondition cond col = .ok mask → mask.length = col.length ∧
      (∀ i (h : i < col.length), (parseOpSplit cond).1 ∈ orderingOps →
        toNumeric (col.get ⟨i, h⟩) = none → mask.get? i = some false)) ∧
    (∀ e, parseCondition cond col = .error e →
      (parseOpSplit cond).1 ∈ orderingOps ∧
      parseFloat (stripQuotes (parseOpSplit cond).2) = none) := by
  have hmem := parseOpSplit_fst_mem cond
  simp only [operators, List.mem_cons, List.not_mem_nil, or_false] at hmem
  constructor
  · intro mask hok
    refine ⟨parseCondition_ok_length hok, ?_⟩
    intro i h hord hnone
    rw [parseCondition_def] at hok
    rcases hmem with he | he | he | he | he | he <;> rw [he] at hok hord
    · cases hv : parseFloat (stripQuotes (parseOpSplit cond).2) <;>
        rw [applyCondition_opGe, hv] at hok
      · simp at hok
      · simp only [Except.ok.injEq] at hok
        rw [← hok, List.get?_map, List.get?_eq_get h, Option.map_some', hnone]
    · cases hv : parseFloat (stripQuotes (parseOpSplit cond).2) <;>
        rw [applyCondition_opLe, hv] at hok
      · simp at hok
      · simp only [Except.ok.injEq] at hok
        rw [← hok, List.get?_map, List.get?_eq_get h, Option.map_some', hnone]
    · exact absurd hord (by decide)
    · exact absurd hord (by decide)
    · cases hv : parseFloat (stripQuotes (parseOpSplit cond).2) <;>
        rw [applyCondition_opGt, hv] at hok
      · simp at hok
      · simp only [Except.ok.injEq] at hok
        rw [← hok, List.get?_map, List.get?_eq_get h, Option.map_some', hnone]
    · cases hv : parseFloat (stripQuotes (parseOpSplit cond).2) <;>
        rw [applyCondition_opLt, hv] at hok
      · simp at hok
      · simp only [Except.ok.injEq] at hok
        rw [← hok, List.get?_map, List.get?_eq_get h, Option.map_some', hnone]
  · intro e herr
    rw [parseCondition_def] at herr
    rcases hmem with he | he | he | he | he | he <;> rw [he] at herr ⊢
    · cases hv : parseFloat (stripQuotes (parseOpSplit cond).2) <;>
        rw [applyCondition_opGe, hv] at herr
      · exact ⟨by decide, rfl⟩
      · simp at herr
    · cases hv : parseFloat (stripQuotes (parseOpSplit cond).2) <;>
        rw [applyCondition_opLe, hv] at herr
      · exact ⟨by decide, rfl⟩
      · simp at herr
    · rw [applyCondition_opEq] at herr
      simp at herr
    · rw [applyCondition_opNe] at herr
      simp at herr
    · cases hv : parseFloat (stripQuotes (parseOpSplit cond).2) <;>
        rw [applyCondition_opGt, hv] at herr
      · exact ⟨by decide, rfl⟩
      · simp at herr
    · cases hv : parseFloat (stripQuotes (parseOpSplit cond).2) <;>
        rw [applyCondition_opLt, hv] at herr
      · exact ⟨by decide, rfl⟩
      · simp at herr

/-- Witness for C8 on an ordering condition over a column with a numeric and
a non-coercible row. -/
theorem mask_length_and_failure_witness :
    ∀ mask, parseCondition ['>', ' ', '5'] [.num 3, .str ['a']] = .ok mask →
      mask.length = ([.num 3, .str ['a']] : List Val).length ∧
      (∀ i (h : i < ([.num 3, .str ['a']] : List Val).length),
        (parseOpSplit ['>', ' ', '5']).1 ∈ orderingOps →
        toNumeric (([.num 3, .str ['a']] : List Val).get ⟨i, h⟩) = none →
        mask.get? i = some false) :=
  (mask_length_and_failure_modes ['>', ' ', '5'] [.num 3, .str ['a']]).1

end DfEditor
